import Mathlib

/-!
Shallow embedding of the response unification engine of
`src/argilla/client/feedback/schemas.py`: the record/response data model,
the rating / label / multi-label strategy reductions, the unification
bindings, and the question-construction validators, together with theorems
checking the specification's statements about them.

Modelling conventions:
* Python exceptions become `Except PyErr`; pydantic validation failures are
  `PyErr.validationError`.
* Python values stored in a `ValueSchema` are `PyValue`; a Python float
  (only produced by the true division in the `mean` strategy) carries its
  exact rational value, since every consumer of such a float inspects only
  its type tag (the `Union[StrictStr, StrictInt, List[str]]` validator
  rejects any float regardless of its numeric value).
* In-place mutation of a record collection is explicit state passing: a
  reduce operation returns the post-state of the collection plus a
  `ReduceReturn` tag describing WHICH Python object the source `return`
  statement hands back (the input list, the last record, or a fresh list).
-/

/-- Python exception kinds raised by the engine. `validationError` stands for
a pydantic `ValidationError` (also wrapping `ValueError`s raised inside
validators); `keyError` models an uncaught `KeyError`. -/
inductive PyErr
  | valueError (msg : String)
  | zeroDivisionError
  | validationError
  | notImplementedError
  | keyError
  | typeError
  | nameError
  deriving Repr, DecidableEq

/-- Payload of a `ValueSchema`, typed `Union[StrictStr, StrictInt, List[str]]`
in the source. The extra `float` constructor represents the Python float
produced by `sum(ratings) / len(ratings)`; its exact rational value is kept,
but downstream validation only ever matches on the constructor. -/
inductive PyValue
  | str (s : String)
  | int (n : Int)
  | strList (l : List String)
  | float (q : ℚ)
  deriving Repr, DecidableEq

/-- Status of a response, `Literal["submitted", "discarded"]` in the source. -/
inductive ResponseStatus
  | submitted
  | discarded
  deriving Repr, DecidableEq

/-- `ResponseSchema`: one annotator's submission. `values` maps a question
name to the `value` payload of its `ValueSchema` (the one-field wrapper is
flattened); `user_id` is an opaque optional identifier. -/
structure ResponseSchema where
  user_id : Option Nat := none
  values : List (String × PyValue)
  status : ResponseStatus := .submitted
  deriving Repr, DecidableEq

/-- `UnificationValueSchema`: a value plus the strategy tag that produced it.
The source types `strategy` as a union of the three strategy enums and every
construction site passes the string `self.value`, which pydantic coerces to
an enum member with exactly that string value; the embedding keeps the
string tag. -/
structure UnificationValueSchema where
  value : PyValue
  strategy : String
  deriving Repr, DecidableEq

/-- Shape of the object assigned at `unified_responses[field]`: the source
assigns either a bare `UnificationValueSchema` (rating aggregates and the
multi-label majority) or a Python list of them (majorities and
disagreement), despite the field's `Dict[str, List[...]]` annotation
(assignment is not validated: `FeedbackRecord` has no
`validate_assignment`). -/
inductive UnifiedEntry
  | single (v : UnificationValueSchema)
  | list (vs : List UnificationValueSchema)
  deriving Repr, DecidableEq

/-- `FeedbackRecord`. `responses` is already normalized to a list (the
`responses_must_be_a_list` validator); `unified_responses` starts as `None`
and is overwritten wholesale by every strategy. -/
structure FeedbackRecord where
  fields : List (String × String)
  responses : List ResponseSchema := []
  external_id : Option String := none
  unified_responses : Option (List (String × UnifiedEntry)) := none
  deriving Repr, DecidableEq

/-- Dictionary lookup `resp.values[field].value`; `none` models a `KeyError`
about to be raised at the call site. -/
def lookupValue (vals : List (String × PyValue)) (k : String) : Option PyValue :=
  (vals.find? (fun p => p.1 == k)).map Prod.snd

/-- The submitted-only filter `[resp for resp in rec.responses if resp.status == "submitted"]`. -/
def submittedOf (rec : FeedbackRecord) : List ResponseSchema :=
  rec.responses.filter (fun r => r.status == ResponseStatus.submitted)

/-- Lookup in a `unified_responses` map. -/
def uLookup (m : Option (List (String × UnifiedEntry))) (k : String) : Option UnifiedEntry :=
  ((m.getD []).find? (fun p => p.1 == k)).map Prod.snd

/-- Pydantic validation of `value: Union[StrictStr, StrictInt, List[str]]`
at `UnificationValueSchema(...)` construction: `StrictStr` and `StrictInt`
refuse coercion and the `List[str]` validator refuses non-lists, so a Python
float fails every member of the union. -/
def validateUnionValue : PyValue → Except PyErr PyValue
  | .float _ => .error .validationError
  | v => .ok v

/-- `UnificationValueSchema(value=v, strategy=tag)`. -/
def mkUnificationValue (v : PyValue) (strategy : String) : Except PyErr UnificationValueSchema :=
  match validateUnionValue v with
  | .ok v => .ok ⟨v, strategy⟩
  | .error e => .error e

/-- Pydantic `str` coercion applied to each element when a Python list is
validated against `List[str]`: strings pass through, ints are stringified,
anything else fails. (Floats cannot occur here: `ValueSchema` validation
already excludes them from responses; a nested list is unhashable and would
have failed earlier as a `Counter` key.) -/
def pyCoerceStr : PyValue → Except PyErr String
  | .str s => .ok s
  | .int n => .ok (toString n)
  | _ => .error .validationError

/-- Error-propagating map, evaluating left to right like the Python loops:
the first failing element raises. -/
def exceptMapM {α β : Type} (f : α → Except PyErr β) : List α → Except PyErr (List β)
  | [] => .ok []
  | a :: as => do
    let b ← f a
    let bs ← exceptMapM f as
    pure (b :: bs)

/-- `UnificationValueSchema(value=ks, strategy=tag)` where `ks` is a Python
list (the accepted multi-label keys): the union's `List[str]` member
validates elementwise. -/
def mkUnificationValueOfList (ks : List PyValue) (strategy : String) : Except PyErr UnificationValueSchema :=
  (exceptMapM pyCoerceStr ks).map fun ss => ⟨.strList ss, strategy⟩

/-- One `collections.Counter` cell: a key with its count, in first-insertion
order like a Python dict. -/
def counterUpdate {α : Type} [DecidableEq α] : List (α × Nat) → α → List (α × Nat)
  | [], k => [(k, 1)]
  | (a, n) :: c, k => if a = k then (a, n + 1) :: c else (a, n) :: counterUpdate c k

/-- The counter obtained by feeding a stream of keys to `Counter.update` one
element at a time (the loops build it incrementally; the net effect is a
fold over the stream). -/
def counterOf {α : Type} [DecidableEq α] (s : List α) : List (α × Nat) :=
  s.foldl counterUpdate []

/-- Count stored for a key (0 when absent). -/
def counterGet {α : Type} [DecidableEq α] : List (α × Nat) → α → Nat
  | [], _ => 0
  | (a, n) :: c, k => if a = k then n else counterGet c k

/-- Number of occurrences of an element in a list. -/
def countOcc {α : Type} [DecidableEq α] : List α → α → Nat
  | [], _ => 0
  | a :: s, j => (if a = j then 1 else 0) + countOcc s j

/-- Python `max(...)` over the counter's counts: `None` on an empty sequence
(which the source lets raise a `ValueError`). -/
def natMax? : List Nat → Option Nat
  | [] => none
  | n :: ns => some (ns.foldl Nat.max n)

/-- `[value for value, count in counter.items() if count == max_count]`. -/
def mostCommonValues (c : List (PyValue × Nat)) (m : Nat) : List PyValue :=
  c.filterMap (fun p => if p.2 = m then some p.1 else none)

/-- `random.choice(l)`: the element at the index drawn by the (arbitrary,
caller-supplied) random source. Only ever applied to a list of length > 1. -/
def pyRandomChoice (rnd : List PyValue → Nat) (l : List PyValue) : PyValue :=
  match l with
  | [] => .int 0
  | a :: as => (a :: as).getD (rnd (a :: as) % (a :: as).length) a

/-- Counter keys must be hashable; a Python list key raises `TypeError`. -/
def hashableKey : PyValue → Except PyErr PyValue
  | .strList _ => .error .typeError
  | v => .ok v

/-- Core of `_majority` (shared verbatim by `RatingQuestionStrategy._majority`
and `LabelQuestionStrategy._majority`): count the values, find the maximal
count, tie-break by `random.choice`, otherwise take `counter.most_common(1)`
(which, with a unique maximizer, is exactly that value). The `head?`/`none`
branch is unreachable: the counter is nonempty whenever `max` succeeded. -/
def majorityValueOf (rnd : List PyValue → Nat) (vs : List PyValue) : Except PyErr PyValue :=
  let c := counterOf vs
  match natMax? (c.map Prod.snd) with
  | none => .error (.valueError "max() arg is an empty sequence")
  | some m =>
    let mcv := mostCommonValues c m
    if 1 < mcv.length then .ok (pyRandomChoice rnd mcv)
    else
      match mcv.head? with
      | some v => .ok v
      | none => .error (.valueError "unreachable")

/-- Python `sum` over the collected ratings: starts from the int 0 and adds
left to right; a non-int element raises `TypeError`. -/
def pySumInt : List PyValue → Except PyErr Int
  | [] => .ok 0
  | v :: vs =>
    match v with
    | .int n => (pySumInt vs).map (n + ·)
    | _ => .error .typeError

/-- Lexicographic comparison of Python string lists. -/
def compareStrList : List String → List String → Ordering
  | [], [] => .eq
  | [], _ :: _ => .lt
  | _ :: _, [] => .gt
  | a :: as, b :: bs =>
    match compare a b with
    | .eq => compareStrList as bs
    | o => o

/-- Python comparison of two values: numbers compare with numbers, strings
with strings, lists lexicographically; mixed kinds raise `TypeError`. -/
def pyCompare : PyValue → PyValue → Except PyErr Ordering
  | .int a, .int b => .ok (compare a b)
  | .int a, .float b => .ok (compare (a : ℚ) b)
  | .float a, .int b => .ok (compare a (b : ℚ))
  | .float a, .float b => .ok (compare a b)
  | .str a, .str b => .ok (compare a b)
  | .strList a, .strList b => .ok (compareStrList a b)
  | _, _ => .error .typeError

/-- Python `max(ratings)`: first maximal element; `ValueError` on empty. -/
def pyMaxVal : List PyValue → Except PyErr PyValue
  | [] => .error (.valueError "max() arg is an empty sequence")
  | v :: vs =>
    vs.foldlM (fun acc x => (pyCompare acc x).map (fun o => if o = Ordering.lt then x else acc)) v

/-- Python `min(ratings)`: first minimal element; `ValueError` on empty. -/
def pyMinVal : List PyValue → Except PyErr PyValue
  | [] => .error (.valueError "min() arg is an empty sequence")
  | v :: vs =>
    vs.foldlM (fun acc x => (pyCompare acc x).map (fun o => if o = Ordering.gt then x else acc)) v

/-- The assignment `rec.unified_responses = {field: entry}`: the whole map is
replaced by a fresh single-entry dict. -/
def writeUnified (field : String) (e : UnifiedEntry) (rec : FeedbackRecord) : FeedbackRecord :=
  { rec with unified_responses := some [(field, e)] }

/-- `RatingQuestionStrategy` enum. -/
inductive RatingQuestionStrategy
  | mean
  | majority
  | max
  | min
  deriving Repr, DecidableEq

/-- The string value of a `RatingQuestionStrategy` member. -/
def RatingQuestionStrategy.value : RatingQuestionStrategy → String
  | .mean => "mean"
  | .majority => "majority"
  | .max => "max"
  | .min => "min"

/-- `RatingQuestionStrategy(s)`: enum lookup by value. -/
def RatingQuestionStrategy.ofString? (s : String) : Option RatingQuestionStrategy :=
  if s = "mean" then some .mean
  else if s = "majority" then some .majority
  else if s = "max" then some .max
  else if s = "min" then some .min
  else none

/-- Per-record body of `RatingQuestionStrategy._aggregate` up to (and
including) constructing the `UnificationValueSchema`: filter to submitted
responses, collect the ratings, aggregate. `sum(ratings)` is evaluated
before the division, whose `len(...) == 0` case raises `ZeroDivisionError`;
a nonempty mean always produces a Python float. The final `else` branch is
the source's `raise ValueError("Invalid aggregation method")`. -/
def ratingAggregateEntry (strat : RatingQuestionStrategy) (field : String) (rec : FeedbackRecord) :
    Except PyErr UnifiedEntry := do
  let ratings ← exceptMapM
    (fun r =>
      match lookupValue r.values field with
      | none => Except.error PyErr.keyError
      | some v => Except.ok v)
    (submittedOf rec)
  let unified_value ← match strat with
    | RatingQuestionStrategy.mean => do
        let s ← pySumInt ratings
        if ratings.length = 0 then Except.error PyErr.zeroDivisionError
        else Except.ok (PyValue.float ((s : ℚ) / (ratings.length : ℚ)))
    | RatingQuestionStrategy.max => pyMaxVal ratings
    | RatingQuestionStrategy.min => pyMinVal ratings
    | RatingQuestionStrategy.majority => Except.error (PyErr.valueError "Invalid aggregation method")
  let uv ← mkUnificationValue unified_value strat.value
  pure (UnifiedEntry.single uv)

/-- One loop iteration of `RatingQuestionStrategy._aggregate`. -/
def ratingAggregateRecord (strat : RatingQuestionStrategy) (field : String) (rec : FeedbackRecord) :
    Except PyErr FeedbackRecord :=
  (ratingAggregateEntry strat field rec).map (fun e => writeUnified field e rec)

/-- Per-record body shared verbatim by `RatingQuestionStrategy._majority` and
`LabelQuestionStrategy._majority`: count submitted values (a list value is
unhashable), pick a maximal one, store a ONE-ELEMENT LIST holding the
unification value. -/
def singleValueMajorityRecord (rnd : List PyValue → Nat) (field : String) (rec : FeedbackRecord) :
    Except PyErr FeedbackRecord := do
  let vs ← exceptMapM
    (fun r =>
      match lookupValue r.values field with
      | none => Except.error PyErr.keyError
      | some v => hashableKey v)
    (submittedOf rec)
  let v ← majorityValueOf rnd vs
  let uv ← mkUnificationValue v "majority"
  pure (writeUnified field (UnifiedEntry.list [uv]) rec)

/-- `MultiLabelQuestionStrategy._majority`'s per-response expansion: a list
value feeds each of its labels to the counter, any other value is counted
as itself. -/
def multiLabelExpand : PyValue → List PyValue
  | .strList l => l.map PyValue.str
  | v => [v]

/-- Concatenation of the per-response key streams. -/
def expandAll : List PyValue → List PyValue
  | [] => []
  | v :: vs => multiLabelExpand v ++ expandAll vs

/-- One loop iteration of `MultiLabelQuestionStrategy._majority`: count label
occurrences over all submitted responses, accept every key whose count
reaches `len(responses) // 2 + 1`, and store the accepted keys as ONE
unification value wrapping the list (not a list of unification values). -/
def multiLabelMajorityRecord (field : String) (rec : FeedbackRecord) :
    Except PyErr FeedbackRecord := do
  let vals ← exceptMapM
    (fun r =>
      match lookupValue r.values field with
      | none => Except.error PyErr.keyError
      | some v => Except.ok v)
    (submittedOf rec)
  let c := counterOf (expandAll vals)
  let majority := (submittedOf rec).length / 2 + 1
  let majority_value := c.filterMap (fun p => if majority ≤ p.2 then some p.1 else none)
  let uv ← mkUnificationValueOfList majority_value "majority"
  pure (writeUnified field (UnifiedEntry.single uv) rec)

/-- One loop iteration of `LabelQuestionStrategyMixin._disagreement`: one
unification value per submitted response, in response order. -/
def disagreementRecord (tag : String) (field : String) (rec : FeedbackRecord) :
    Except PyErr FeedbackRecord := do
  let uvs ← exceptMapM
    (fun r =>
      match lookupValue r.values field with
      | none => Except.error PyErr.keyError
      | some v => mkUnificationValue v tag)
    (submittedOf rec)
  pure (writeUnified field (UnifiedEntry.list uvs) rec)

/-- Which Python object a strategy's reduce loop returns: the records list
it was handed (mutated in place), the last record of the loop
(`LabelQuestionStrategy._majority`'s `return rec`), or the never-extended
fresh list `unified_records = []` of `_disagreement`. -/
inductive ReduceReturn
  | inputCollection
  | lastRecord
  | emptyList
  deriving Repr, DecidableEq

/-- `RatingQuestionStrategy._aggregate`: mutate every record, `return records`. -/
def RatingQuestionStrategy._aggregate (strat : RatingQuestionStrategy)
    (records : List FeedbackRecord) (field : String) :
    Except PyErr (List FeedbackRecord × ReduceReturn) :=
  (exceptMapM (ratingAggregateRecord strat field) records).map
    (fun rs => (rs, ReduceReturn.inputCollection))

/-- `RatingQuestionStrategy._majority`: mutate every record, `return records`. -/
def RatingQuestionStrategy._majority (rnd : List PyValue → Nat)
    (records : List FeedbackRecord) (field : String) :
    Except PyErr (List FeedbackRecord × ReduceReturn) :=
  (exceptMapM (singleValueMajorityRecord rnd field) records).map
    (fun rs => (rs, ReduceReturn.inputCollection))

/-- The rating question (post-construction). `settings.options` keeps the
`values` of the `[{"value": v}, ...]` payload. -/
structure RatingSettings where
  type_ : String := "rating"
  options : List Int := []
  deriving Repr, DecidableEq

/-- `RatingQuestion` data (after validation). -/
structure RatingQuestion where
  name : String
  title : String
  description : Option String := none
  required : Bool := true
  values : List Int
  settings : RatingSettings
  deriving Repr, DecidableEq

/-- The `field` argument of `RatingQuestionStrategy.unify_responses`: a
string or a `RatingQuestion` (whose name is extracted). -/
inductive RatingFieldRef
  | name (s : String)
  | question (q : RatingQuestion)
  deriving Repr, DecidableEq

/-- Name extraction from the field argument. -/
def RatingFieldRef.fieldName : RatingFieldRef → String
  | .name s => s
  | .question q => q.name

/-- `RatingQuestionStrategy.unify_responses`: dispatch majority vs aggregate. -/
def RatingQuestionStrategy.unify_responses (strat : RatingQuestionStrategy)
    (rnd : List PyValue → Nat) (records : List FeedbackRecord) (field : RatingFieldRef) :
    Except PyErr (List FeedbackRecord × ReduceReturn) :=
  if strat = RatingQuestionStrategy.majority then
    RatingQuestionStrategy._majority rnd records field.fieldName
  else
    RatingQuestionStrategy._aggregate strat records field.fieldName

/-- One `{value, text}` option of a label question's settings. -/
structure LabelOption where
  value : String
  text : String
  deriving Repr, DecidableEq

/-- Derived settings of a label / multi-label question. -/
structure LabelSettings where
  type_ : String
  options : List LabelOption
  visible_options : Option Int
  deriving Repr, DecidableEq

/-- The validated `labels` payload: either a list of distinct strings or a
key-to-display-text mapping (insertion-ordered). -/
inductive Labels
  | labelList (l : List String)
  | labelDict (d : List (String × String))
  deriving Repr, DecidableEq

/-- Label / multi-label question data (after validation); the two classes
share this shape (`_LabelQuestion`), differing only in the settings type
tag and their Python class. -/
structure LabelQuestionData where
  name : String
  title : String
  description : Option String := none
  required : Bool := true
  labels : Labels
  visible_labels : Option Int
  settings : LabelSettings
  deriving Repr, DecidableEq

/-- `LabelQuestionStrategy` enum. -/
inductive LabelQuestionStrategy
  | majority
  | majority_weighted
  | disagreement
  deriving Repr, DecidableEq

/-- The string value of a `LabelQuestionStrategy` member. -/
def LabelQuestionStrategy.value : LabelQuestionStrategy → String
  | .majority => "majority"
  | .majority_weighted => "majority_weighted"
  | .disagreement => "disagreement"

/-- `LabelQuestionStrategy(s)`: enum lookup by value. -/
def LabelQuestionStrategy.ofString? (s : String) : Option LabelQuestionStrategy :=
  if s = "majority" then some .majority
  else if s = "majority_weighted" then some .majority_weighted
  else if s = "disagreement" then some .disagreement
  else none

/-- `MultiLabelQuestionStrategy` enum. -/
inductive MultiLabelQuestionStrategy
  | majority
  | majority_weighted
  | disagreement
  deriving Repr, DecidableEq

/-- The string value of a `MultiLabelQuestionStrategy` member. -/
def MultiLabelQuestionStrategy.value : MultiLabelQuestionStrategy → String
  | .majority => "majority"
  | .majority_weighted => "majority_weighted"
  | .disagreement => "disagreement"

/-- `MultiLabelQuestionStrategy(s)`: enum lookup by value. -/
def MultiLabelQuestionStrategy.ofString? (s : String) : Option MultiLabelQuestionStrategy :=
  if s = "majority" then some .majority
  else if s = "majority_weighted" then some .majority_weighted
  else if s = "disagreement" then some .disagreement
  else none

/-- The `field` argument of the label-family `unify_responses`: a string, a
`LabelQuestion` or a `MultiLabelQuestion`. -/
inductive LabelFieldRef
  | name (s : String)
  | labelQuestion (q : LabelQuestionData)
  | multiLabelQuestion (q : LabelQuestionData)
  deriving Repr, DecidableEq

/-- Name extraction from the label-family field argument. -/
def LabelFieldRef.fieldName : LabelFieldRef → String
  | .name s => s
  | .labelQuestion q => q.name
  | .multiLabelQuestion q => q.name

/-- `LabelQuestionStrategyMixin._disagreement`: mutates every record but
returns the local `unified_records` list, which is created empty and never
appended to. -/
def LabelQuestionStrategyMixin._disagreement (tag : String)
    (records : List FeedbackRecord) (field : String) :
    Except PyErr (List FeedbackRecord × ReduceReturn) :=
  (exceptMapM (disagreementRecord tag field) records).map
    (fun rs => (rs, ReduceReturn.emptyList))

/-- `LabelQuestionStrategy._majority`: mutates every record but ends with
`return rec`, the LAST loop variable; on an empty collection the loop never
binds `rec` and Python raises an `UnboundLocalError` (a `NameError`). -/
def LabelQuestionStrategy._majority (rnd : List PyValue → Nat)
    (records : List FeedbackRecord) (field : String) :
    Except PyErr (List FeedbackRecord × ReduceReturn) :=
  (exceptMapM (singleValueMajorityRecord rnd field) records).bind
    (fun rs => if rs.isEmpty then .error .nameError else .ok (rs, ReduceReturn.lastRecord))

/-- `LabelQuestionStrategy.unify_responses` (the mixin dispatch specialized
to the single-label enum): majority / not-implemented / disagreement. -/
def LabelQuestionStrategy.unify_responses (strat : LabelQuestionStrategy)
    (rnd : List PyValue → Nat) (records : List FeedbackRecord) (field : LabelFieldRef) :
    Except PyErr (List FeedbackRecord × ReduceReturn) :=
  match strat with
  | .majority => LabelQuestionStrategy._majority rnd records field.fieldName
  | .majority_weighted => .error .notImplementedError
  | .disagreement => LabelQuestionStrategyMixin._disagreement "disagreement" records field.fieldName

/-- `MultiLabelQuestionStrategy._majority`: mutates every record and returns
the records collection. -/
def MultiLabelQuestionStrategy._majority (records : List FeedbackRecord) (field : String) :
    Except PyErr (List FeedbackRecord × ReduceReturn) :=
  (exceptMapM (multiLabelMajorityRecord field) records).map
    (fun rs => (rs, ReduceReturn.inputCollection))

/-- `MultiLabelQuestionStrategy.unify_responses` (the mixin dispatch
specialized to the multi-label enum). -/
def MultiLabelQuestionStrategy.unify_responses (strat : MultiLabelQuestionStrategy)
    (records : List FeedbackRecord) (field : LabelFieldRef) :
    Except PyErr (List FeedbackRecord × ReduceReturn) :=
  match strat with
  | .majority => MultiLabelQuestionStrategy._majority records field.fieldName
  | .majority_weighted => .error .notImplementedError
  | .disagreement => LabelQuestionStrategyMixin._disagreement "disagreement" records field.fieldName

/-- `RatingQuestionUnification` (after validation): a rating question with a
rating strategy. -/
structure RatingQuestionUnification where
  question : RatingQuestion
  strategy : RatingQuestionStrategy
  deriving Repr, DecidableEq

/-- The pydantic class of the `question` field of a `LabelQuestionUnification`
after field validation. -/
inductive LMQuestion
  | label (q : LabelQuestionData)
  | multi (q : LabelQuestionData)
  deriving Repr, DecidableEq

/-- The strategy stored in a validated `LabelQuestionUnification`. -/
inductive LabelStrategyStored
  | labelS (s : LabelQuestionStrategy)
  | multiS (s : MultiLabelQuestionStrategy)
  deriving Repr, DecidableEq

/-- `LabelQuestionUnification` (after validation). -/
structure LabelQuestionUnification where
  question : LMQuestion
  strategy : LabelStrategyStored
  deriving Repr, DecidableEq

/-- A question value handed to a binding constructor (the caller may pass a
question of any class; pydantic decides what validates). A text question
carries only what the coercion analysis needs. -/
inductive AnyQuestion
  | rating (q : RatingQuestion)
  | labelQ (q : LabelQuestionData)
  | multiQ (q : LabelQuestionData)
  | textQ (name : String)
  deriving Repr, DecidableEq

/-- A strategy value handed to `LabelQuestionUnification`: the field is
`Union[str, LabelQuestionStrategy, MultiLabelQuestionStrategy]`; a rating
enum member matches no union member (enum lookup by value fails because an
enum member is not equal to its string value) and fails field validation. -/
inductive LabelStrategyInput
  | str (s : String)
  | labelS (s : LabelQuestionStrategy)
  | multiS (s : MultiLabelQuestionStrategy)
  | ratingS (s : RatingQuestionStrategy)
  deriving Repr, DecidableEq

/-- A strategy value handed to `RatingQuestionUnification` (field type
`Union[str, RatingQuestionStrategy]`). -/
inductive RatingStrategyInput
  | str (s : String)
  | ratingS (s : RatingQuestionStrategy)
  | labelS (s : LabelQuestionStrategy)
  | multiS (s : MultiLabelQuestionStrategy)
  deriving Repr, DecidableEq

/-- Pydantic v1 field validation of
`question: Union[LabelQuestion, MultiLabelQuestion]`, WITHOUT `smart_union`:
members are tried left to right with coercion. A `LabelQuestion` instance
passes the first member unchanged. A `MultiLabelQuestion` instance is NOT
an instance of `LabelQuestion` (they are sibling classes), but
`BaseModel.validate` falls back to `LabelQuestion(**dict(value))`, which
succeeds since both classes declare exactly the same fields — so every
multi-label question is silently reclassified as a `LabelQuestion` (its
data, including the `multi_label_selection` settings type, is preserved).
A rating or text question fails both members; the bare `@root_validator`
(no `skip_on_failure`) still runs, and its `values["question"]` lookup
raises an uncaught `KeyError`. -/
def coerceLMQuestion : AnyQuestion → Except PyErr LMQuestion
  | .labelQ q => .ok (.label q)
  | .multiQ q => .ok (.label q)
  | _ => .error .keyError

/-- `LabelQuestionUnification` construction:
`strategy_must_be_valid_and_align_with_question` (the root validator) run on
the field-validated `question` and `strategy`. Because of the union coercion
the `MultiLabelQuestion` branch of the validator is dead code; it is kept
here as written. A rating strategy member fails field validation, making
the whole construction a `ValidationError`. -/
def LabelQuestionUnification.mk? (question : AnyQuestion) (strategy : LabelStrategyInput) :
    Except PyErr LabelQuestionUnification := do
  let q ← coerceLMQuestion question
  match strategy with
  | .ratingS _ => .error .validationError
  | .str s =>
    match q with
    | .label _ =>
      match LabelQuestionStrategy.ofString? s with
      | some st => .ok ⟨q, .labelS st⟩
      | none => .error .validationError
    | .multi _ =>
      match MultiLabelQuestionStrategy.ofString? s with
      | some st => .ok ⟨q, .multiS st⟩
      | none => .error .validationError
  | .labelS st =>
    match q with
    | .label _ => .ok ⟨q, .labelS st⟩
    | .multi _ => .error .validationError
  | .multiS st =>
    match q with
    | .label _ => .error .validationError
    | .multi _ => .ok ⟨q, .multiS st⟩

/-- `RatingQuestionUnification` construction: the `question` field only
validates a `RatingQuestion` (a label / multi-label / text question has a
different field set and fails coercion, `Extra.forbid` rejecting its extra
fields); the `strategy_must_be_valid` validator coerces a string through
the enum. -/
def RatingQuestionUnification.mk? (question : AnyQuestion) (strategy : RatingStrategyInput) :
    Except PyErr RatingQuestionUnification :=
  match question with
  | .rating q =>
    match strategy with
    | .str s =>
      match RatingQuestionStrategy.ofString? s with
      | some st => .ok ⟨q, st⟩
      | none => .error .validationError
    | .ratingS st => .ok ⟨q, st⟩
    | _ => .error .validationError
  | _ => .error .validationError

/-- Python `str.capitalize`: first character uppercased, the rest lowered. -/
def pyCapitalize (s : String) : String :=
  match s.data with
  | [] => ""
  | c :: cs => String.mk (c.toUpper :: cs.map Char.toLower)

/-- The `title_must_have_value` validator: an omitted or falsy (empty) title
becomes the capitalized name. -/
def resolveTitle (name : String) (title : Option String) : String :=
  match title with
  | none => pyCapitalize name
  | some s => if s.isEmpty then pyCapitalize name else s

/-- `RatingQuestion` construction: `values: List[int]` with
`unique_items=True, min_items=2`; settings derive the options payload. -/
def RatingQuestion.mk? (name : String) (title : Option String) (values : List Int) :
    Except PyErr RatingQuestion :=
  if 2 ≤ values.length ∧ values.Nodup then
    .ok { name, title := resolveTitle name title, values,
          settings := { type_ := "rating", options := values } }
  else .error .validationError

/-- The `labels` argument of a label / multi-label question: a list of
strings or a dict (insertion-ordered association list). -/
inductive LabelsInput
  | list (l : List String)
  | dict (d : List (String × String))
  deriving Repr, DecidableEq

/-- Python dict insertion: overriding an existing key keeps its position. -/
def dictInsert : List (String × String) → String → String → List (String × String)
  | [], k, v => [(k, v)]
  | (a, b) :: d, k, v => if a = k then (a, v) :: d else (a, b) :: dictInsert d k v

/-- `dict(list_of_strings)`, which pydantic's `dict_validator` attempts when
a list fails the `conlist` member of the union: it succeeds exactly when
every element is a two-character string (each string being an iterable
key/value pair), later pairs overriding earlier ones. -/
def pyDictOfStrings (l : List String) : Except PyErr (List (String × String)) :=
  if l.all (fun s => s.length = 2) then
    .ok (l.foldl (fun d s => dictInsert d (s.take 1) (s.drop 1)) [])
  else .error .typeError

/-- The `labels_dict_must_be_valid` validator on a dict value: more than one
key, and pairwise-distinct display texts. -/
def labelsDictCheck (d : List (String × String)) : Except PyErr Labels :=
  if 1 < d.length ∧ (d.map Prod.snd).Nodup then .ok (.labelDict d) else .error .validationError

/-- Field validation of
`labels: Union[conlist(str, unique_items=True, min_items=2), Dict[str, str]]`:
the list member is tried first (at least two distinct strings); on failure
pydantic's dict coercion is attempted, then the dict validator. A dict
input skips the list member (a dict is not sequence-like). -/
def validateLabels : LabelsInput → Except PyErr Labels
  | .list l =>
    if 2 ≤ l.length ∧ l.Nodup then .ok (.labelList l)
    else
      match pyDictOfStrings l with
      | .ok d => labelsDictCheck d
      | .error _ => .error .validationError
  | .dict d => labelsDictCheck d

/-- `visible_labels: Optional[conint(ge=3)] = 20`: `None` is always valid,
an int must be at least 3. -/
def validateVisibleLabels : Option Int → Except PyErr (Option Int)
  | none => .ok none
  | some n => if 3 ≤ n then .ok (some n) else .error .validationError

/-- The `options` payload derived by `update_settings`. -/
def labelOptions : Labels → List LabelOption
  | .labelList l => l.map (fun x => { value := x, text := x })
  | .labelDict d => d.map (fun p => { value := p.1, text := p.2 })

/-- `_LabelQuestion` construction (`LabelQuestion` when `isMulti = false`,
`MultiLabelQuestion` when true): validate `labels` and `visible_labels`,
then assemble settings; an omitted `visible_labels` defaults to 20. -/
def mkLabelQuestion (isMulti : Bool) (name : String) (title : Option String)
    (labels : LabelsInput) (visible_labels : Option Int := some 20) :
    Except PyErr LabelQuestionData := do
  let ls ← validateLabels labels
  let vl ← validateVisibleLabels visible_labels
  pure { name, title := resolveTitle name title, labels := ls, visible_labels := vl,
         settings := { type_ := if isMulti then "multi_label_selection" else "label_selection",
                       options := labelOptions ls, visible_options := vl } }

/-- `TextField` data (only what the training-data container needs). -/
structure TextFieldS where
  name : String
  title : String
  required : Bool := true
  use_markdown : Bool := false
  deriving Repr, DecidableEq

/-- The `label` field of `TrainingDataForTextClassification`:
`Union[RatingQuestionUnification, LabelQuestionUnification]`. -/
inductive TrainLabel
  | rating (u : RatingQuestionUnification)
  | label (u : LabelQuestionUnification)
  deriving Repr, DecidableEq

/-- `TrainingDataForTextClassification`. -/
structure TrainingDataForTextClassification where
  text : TextFieldS
  label : TrainLabel
  deriving Repr, DecidableEq

/-- Dispatch `self.label.strategy.unify_responses` for a label-family
strategy value. -/
def LabelStrategyStored.unify_responses (s : LabelStrategyStored)
    (rnd : List PyValue → Nat) (records : List FeedbackRecord) (field : LabelFieldRef) :
    Except PyErr (List FeedbackRecord × ReduceReturn) :=
  match s with
  | .labelS st => LabelQuestionStrategy.unify_responses st rnd records field
  | .multiS st => MultiLabelQuestionStrategy.unify_responses st records field

/-- The `field=self.label.question` argument for a label-family binding. -/
def LMQuestion.fieldRef : LMQuestion → LabelFieldRef
  | .label q => .labelQuestion q
  | .multi q => .multiLabelQuestion q

/-- `TrainingDataForTextClassification.unify_responses`: calls the bound
strategy's `unify_responses` with the bound question and discards the
return value; the observable effect is the mutated records collection
(the post-state component). -/
def TrainingDataForTextClassification.unify_responses
    (td : TrainingDataForTextClassification) (rnd : List PyValue → Nat)
    (records : List FeedbackRecord) : Except PyErr (List FeedbackRecord) :=
  match td.label with
  | .rating u =>
    (RatingQuestionStrategy.unify_responses u.strategy rnd records (.question u.question)).map Prod.fst
  | .label u =>
    (LabelStrategyStored.unify_responses u.strategy rnd records u.question.fieldRef).map Prod.fst

/-! Concrete inputs used by counterexamples, bug evaluations and witnesses. -/

/-- A fixed draw source (always index 0) for closed evaluations. -/
def rnd0 : List PyValue → Nat := fun _ => 0

/-- A response carrying one value for one question. -/
def respOf (field : String) (v : PyValue) (st : ResponseStatus) : ResponseSchema :=
  { values := [(field, v)], status := st }

/-- The spec's rating example: ratings 4, 5, 5 submitted and 1 discarded. -/
def rec456 : FeedbackRecord :=
  { fields := [("text", "t")],
    responses := [respOf "rating" (.int 4) .submitted, respOf "rating" (.int 5) .submitted,
                  respOf "rating" (.int 5) .submitted, respOf "rating" (.int 1) .discarded] }

/-- Three submitted multi-label responses; the first one repeats "x". -/
def recC1 : FeedbackRecord :=
  { fields := [("text", "t")],
    responses := [respOf "q" (.strList ["x", "x"]) .submitted,
                  respOf "q" (.strList ["y"]) .submitted,
                  respOf "q" (.strList ["y"]) .submitted] }

/-- A record with no submitted response (one discarded). -/
def recEmpty : FeedbackRecord :=
  { fields := [("text", "t")], responses := [respOf "q" (.strList ["x"]) .discarded] }

/-- A record with one submitted single-label response. -/
def recD : FeedbackRecord :=
  { fields := [("text", "t")], responses := [respOf "q" (.str "a") .submitted] }

/-- Single-label responses "a", "b", "a". -/
def recABA : FeedbackRecord :=
  { fields := [("text", "t")],
    responses := [respOf "lq" (.str "a") .submitted, respOf "lq" (.str "b") .submitted,
                  respOf "lq" (.str "a") .submitted] }

/-- A record holding a prior unified entry for question "B" and one
submitted rating for question "A". -/
def recB : FeedbackRecord :=
  { fields := [("text", "t")],
    responses := [respOf "A" (.int 3) .submitted],
    unified_responses := some [("B", .single ⟨.int 7, "max"⟩)] }

/-- A concrete label/multi-label question payload. -/
def exLQ : LabelQuestionData :=
  { name := "q", title := "Q", labels := .labelList ["a", "b", "c"], visible_labels := some 3,
    settings := { type_ := "multi_label_selection",
                  options := [⟨"a", "a"⟩, ⟨"b", "b"⟩, ⟨"c", "c"⟩], visible_options := some 3 } }

/-- A concrete rating question payload. -/
def exRQ : RatingQuestion :=
  { name := "r", title := "R", values := [1, 2, 3],
    settings := { type_ := "rating", options := [1, 2, 3] } }

/-! Spec-side definitions, used to compare the code's behavior with the
claim's wording where they differ. -/

/-- Number of submitted responses whose value, READ AS A SET of chosen
labels, contains `lab` — the frequency notion of the claim's
"treating each response's value as a set of chosen labels". -/
def respSetCount (field : String) (rec : FeedbackRecord) (lab : String) : Nat :=
  ((submittedOf rec).filter (fun r =>
    match lookupValue r.values field with
    | some (.strList l) => l.contains lab
    | _ => false)).length

/-- The claim's validity condition for a label / multi-label question
configuration: it enumerates only "fewer than 2 entries", "(dict form)
fewer than 2 distinct display texts" and "visible_labels an integer below
3" as failure causes. -/
def claimLabelConfigOk (labels : LabelsInput) (visible : Option Int) : Bool :=
  (match labels with
   | .list l => decide (2 ≤ l.length)
   | .dict d => decide (2 ≤ (d.map Prod.snd).dedup.length)) &&
  (match visible with
   | none => true
   | some n => decide (3 ≤ n))

deriving instance DecidableEq for Except

/-! Closed claim theorems (counterexamples and bug evaluations). -/

/-- Claim C1, counterexample: on three submitted responses with values
["x","x"], ["y"], ["y"] (N = 3, threshold 2), the code accepts "x" — it
counts label OCCURRENCES, so the duplicated "x" inside one response
contributes 2 — although only one submitted response chose "x"
(`respSetCount` = 1 < 2), so the claim's "treating each response's value as
a set of chosen labels" is false of the code. -/
theorem C1_counterexample :
    multiLabelMajorityRecord "q" recC1 =
      .ok { recC1 with unified_responses :=
              (some [("q", .single ⟨PyValue.strList ["x", "y"], "majority"⟩)]) } ∧
    respSetCount "q" recC1 "x" = 1 ∧
    (submittedOf recC1).length / 2 + 1 = 2 := by
  refine ⟨?_, ?_, ?_⟩ <;> decide

/-- Claim C3: evaluation at a one-record collection with one submitted
response. `_disagreement` mutates the record in place but returns its local
empty list; `LabelQuestionStrategy._majority` returns the last record, not
the collection; a rating reduce, for contrast, does return the input
collection. -/
theorem C3_thm :
    LabelQuestionStrategy.unify_responses .disagreement rnd0 [recD] (.name "q") =
      .ok ([{ recD with unified_responses :=
                (some [("q", UnifiedEntry.list [⟨.str "a", "disagreement"⟩])]) }], .emptyList) ∧
    MultiLabelQuestionStrategy.unify_responses .disagreement [recD] (.name "q") =
      .ok ([{ recD with unified_responses :=
                (some [("q", UnifiedEntry.list [⟨.str "a", "disagreement"⟩])]) }], .emptyList) ∧
    LabelQuestionStrategy.unify_responses .majority rnd0 [recD] (.name "q") =
      .ok ([{ recD with unified_responses :=
                (some [("q", UnifiedEntry.list [⟨.str "a", "majority"⟩])]) }], .lastRecord) ∧
    RatingQuestionStrategy.unify_responses .max rnd0 [rec456] (.name "rating") =
      .ok ([{ rec456 with unified_responses :=
                (some [("rating", .single ⟨.int 5, "max"⟩)]) }], .inputCollection) := by
  refine ⟨?_, ?_, ?_, ?_⟩ <;> decide

/-- Claim C5, counterexample: on a record whose submitted-response set is
empty, the multi-label majority does NOT raise — it succeeds and stores the
empty list as the unified value. -/
theorem C5_counterexample :
    multiLabelMajorityRecord "q" recEmpty =
      .ok { recEmpty with unified_responses :=
              (some [("q", .single ⟨PyValue.strList [], "majority"⟩)]) } := by
  decide

/-- Claim C6: evaluation at the spec's example (ratings 4, 5, 5 submitted,
1 discarded). `max` and `min` behave as claimed (5 and 4, stored as one
unwrapped unification value), but `mean` raises a pydantic
`ValidationError`: `sum(ratings) / len(ratings)` is a Python float, which
the `Union[StrictStr, StrictInt, List[str]]` type of
`UnificationValueSchema.value` rejects. -/
theorem C6_thm :
    RatingQuestionStrategy.unify_responses .mean rnd0 [rec456] (.name "rating") =
      .error .validationError ∧
    RatingQuestionStrategy.unify_responses .max rnd0 [rec456] (.name "rating") =
      .ok ([{ rec456 with unified_responses :=
                (some [("rating", .single ⟨.int 5, "max"⟩)]) }], .inputCollection) ∧
    RatingQuestionStrategy.unify_responses .min rnd0 [rec456] (.name "rating") =
      .ok ([{ rec456 with unified_responses :=
                (some [("rating", .single ⟨.int 4, "min"⟩)]) }], .inputCollection) := by
  refine ⟨?_, ?_, ?_⟩ <;> decide

/-- Claim C7, counterexample: a record already holding a unified entry for
question "B" loses it when a strategy runs for question "A" — the
assignment `rec.unified_responses = {field: ...}` replaces the whole map,
so afterwards the lookup for "B" yields nothing. -/
theorem C7_counterexample :
    uLookup recB.unified_responses "B" = some (.single ⟨.int 7, "max"⟩) ∧
    ratingAggregateRecord .max "A" recB =
      .ok { recB with unified_responses := some [("A", .single ⟨.int 3, "max"⟩)] } ∧
    uLookup (some [("A", UnifiedEntry.single ⟨.int 3, "max"⟩)]) "B" = none := by
  refine ⟨?_, ?_, ?_⟩ <;> decide

/-- Claim C8: evaluation of binding construction. Pairing a SINGLE-label
strategy with a MULTI-label question SUCCEEDS (pydantic's left-to-right
union coercion silently reclassifies the multi-label question as a
`LabelQuestion` before the root validator runs), pairing the multi-label
strategy enum fails with BOTH question classes (even the matching one), a
string tag on a multi-label question is coerced to the SINGLE-label enum,
and a rating binding accepts only a rating question. -/
theorem C8_thm :
    LabelQuestionUnification.mk? (.multiQ exLQ) (.labelS .majority) =
      .ok ⟨.label exLQ, .labelS .majority⟩ ∧
    LabelQuestionUnification.mk? (.multiQ exLQ) (.multiS .majority) = .error .validationError ∧
    LabelQuestionUnification.mk? (.labelQ exLQ) (.multiS .majority) = .error .validationError ∧
    LabelQuestionUnification.mk? (.multiQ exLQ) (.str "majority") =
      .ok ⟨.label exLQ, .labelS .majority⟩ ∧
    RatingQuestionUnification.mk? (.labelQ exLQ) (.ratingS .mean) = .error .validationError ∧
    RatingQuestionUnification.mk? (.rating exRQ) (.str "mean") = .ok ⟨exRQ, .mean⟩ := by
  refine ⟨?_, ?_, ?_, ?_, ?_, ?_⟩ <;> decide

/-- Claim C9, counterexample: `labels=["a","a"]` has 2 entries and is not a
dict, so by the claim's enumeration of failure causes it should construct —
but `conlist(..., unique_items=True)` rejects the duplicate (and the dict
coercion of one-character strings fails), so construction raises. -/
theorem C9_counterexample :
    claimLabelConfigOk (.list ["a", "a"]) none = true ∧
    mkLabelQuestion false "q" none (.list ["a", "a"]) none = .error .validationError := by
  refine ⟨?_, ?_⟩ <;> decide

/-- Claim C10: a label or multi-label question constructed without an
explicit `visible_labels` argument gets `visible_labels = 20` and
`visible_options = 20` in its settings, which differs from passing `None`
("show all"). -/
theorem C10_thm :
    mkLabelQuestion false "lbl" none (.list ["a", "b"]) =
      .ok { name := "lbl", title := "Lbl", labels := .labelList ["a", "b"],
            visible_labels := some 20,
            settings := { type_ := "label_selection",
                          options := [⟨"a", "a"⟩, ⟨"b", "b"⟩],
                          visible_options := some 20 } } ∧
    mkLabelQuestion true "lbl" none (.list ["a", "b"]) =
      .ok { name := "lbl", title := "Lbl", labels := .labelList ["a", "b"],
            visible_labels := some 20,
            settings := { type_ := "multi_label_selection",
                          options := [⟨"a", "a"⟩, ⟨"b", "b"⟩],
                          visible_options := some 20 } } ∧
    mkLabelQuestion false "lbl" none (.list ["a", "b"]) none ≠
      mkLabelQuestion false "lbl" none (.list ["a", "b"]) := by
  refine ⟨?_, ?_, ?_⟩ <;> decide

/-! Lemmas about counters, occurrence counts and the error-propagating map. -/

/-- Keys of a counter, in insertion order. -/
def counterKeys {α : Type} (c : List (α × Nat)) : List α := c.map Prod.fst

theorem counterGet_update_self {α : Type} [DecidableEq α] (c : List (α × Nat)) (k : α) :
    counterGet (counterUpdate c k) k = counterGet c k + 1 := by
  induction c with
  | nil => simp [counterUpdate, counterGet]
  | cons p c ih =>
    obtain ⟨a, n⟩ := p
    by_cases h : a = k
    · subst h; simp [counterUpdate, counterGet]
    · simp [counterUpdate, counterGet, h, ih]

theorem counterGet_update_ne {α : Type} [DecidableEq α] (c : List (α × Nat)) (k j : α)
    (h : j ≠ k) : counterGet (counterUpdate c k) j = counterGet c j := by
  induction c with
  | nil => simp [counterUpdate, counterGet, Ne.symm h]
  | cons p c ih =>
    obtain ⟨a, n⟩ := p
    by_cases hak : a = k
    · subst hak
      have haj : a ≠ j := fun hh => h hh.symm
      simp [counterUpdate, counterGet, haj]
    · by_cases haj : a = j
      · subst haj; simp [counterUpdate, counterGet, hak]
      · simp [counterUpdate, counterGet, hak, haj, ih]

theorem counterGet_foldl {α : Type} [DecidableEq α] (s : List α) :
    ∀ (c : List (α × Nat)) (j : α),
      counterGet (s.foldl counterUpdate c) j = counterGet c j + countOcc s j := by
  induction s with
  | nil => intro c j; simp [countOcc]
  | cons a s ih =>
    intro c j
    simp only [List.foldl_cons, countOcc]
    rw [ih]
    by_cases h : a = j
    · subst h
      rw [counterGet_update_self]
      simp only [ite_true, if_pos rfl]
      omega
    · rw [counterGet_update_ne _ _ _ (fun hh => h hh.symm)]; simp [h]

theorem counterOf_get {α : Type} [DecidableEq α] (s : List α) (j : α) :
    counterGet (counterOf s) j = countOcc s j := by
  simpa [counterGet] using counterGet_foldl s [] j

theorem counterKeys_update {α : Type} [DecidableEq α] (c : List (α × Nat)) (k : α) :
    counterKeys (counterUpdate c k) =
      if k ∈ counterKeys c then counterKeys c else counterKeys c ++ [k] := by
  induction c with
  | nil => simp [counterUpdate, counterKeys]
  | cons p c ih =>
    obtain ⟨a, n⟩ := p
    by_cases h : a = k
    · subst h; simp [counterUpdate, counterKeys]
    · have hka : ¬(k = a) := fun hh => h hh.symm
      have hupd : counterUpdate ((a, n) :: c) k = (a, n) :: counterUpdate c k := by
        simp [counterUpdate, h]
      rw [hupd]
      have hkeys : counterKeys ((a, n) :: counterUpdate c k)
          = a :: counterKeys (counterUpdate c k) := rfl
      rw [hkeys, ih]
      by_cases hm : k ∈ counterKeys c
      · rw [if_pos hm,
          if_pos (show k ∈ counterKeys ((a, n) :: c) from List.mem_cons_of_mem _ hm)]
        rfl
      · rw [if_neg hm, if_neg (show k ∉ counterKeys ((a, n) :: c) from ?_)]
        · rfl
        · intro hc
          rcases List.mem_cons.mp hc with hc | hc
          · exact hka hc
          · exact hm hc

theorem mem_counterKeys_update {α : Type} [DecidableEq α] (c : List (α × Nat)) (k j : α) :
    j ∈ counterKeys (counterUpdate c k) ↔ j ∈ counterKeys c ∨ j = k := by
  rw [counterKeys_update]
  by_cases hm : k ∈ counterKeys c
  · simp only [hm, if_true]
    constructor
    · exact Or.inl
    · rintro (h | rfl)
      · exact h
      · exact hm
  · simp [hm]

theorem counterKeys_nodup_update {α : Type} [DecidableEq α] (c : List (α × Nat)) (k : α)
    (h : (counterKeys c).Nodup) : (counterKeys (counterUpdate c k)).Nodup := by
  rw [counterKeys_update]
  by_cases hm : k ∈ counterKeys c
  · simpa [hm]
  · rw [if_neg hm]
    refine List.Nodup.append h (List.nodup_singleton k) ?_
    intro x hx hk2
    rw [List.mem_singleton] at hk2
    subst hk2
    exact hm hx

theorem counterKeys_foldl_nodup {α : Type} [DecidableEq α] (s : List α) :
    ∀ c : List (α × Nat), (counterKeys c).Nodup → (counterKeys (s.foldl counterUpdate c)).Nodup := by
  induction s with
  | nil => intro c h; simpa
  | cons a s ih => intro c h; exact ih _ (counterKeys_nodup_update _ _ h)

theorem counterOf_keys_nodup {α : Type} [DecidableEq α] (s : List α) :
    (counterKeys (counterOf s)).Nodup :=
  counterKeys_foldl_nodup s [] (by simp [counterKeys])

theorem mem_counterKeys_foldl {α : Type} [DecidableEq α] (s : List α) :
    ∀ (c : List (α × Nat)) (j : α),
      j ∈ counterKeys (s.foldl counterUpdate c) ↔ j ∈ counterKeys c ∨ j ∈ s := by
  induction s with
  | nil => intro c j; simp
  | cons a s ih =>
    intro c j
    simp only [List.foldl_cons]
    rw [ih, mem_counterKeys_update, List.mem_cons]
    tauto

theorem mem_counterOf_keys {α : Type} [DecidableEq α] (s : List α) (j : α) :
    j ∈ counterKeys (counterOf s) ↔ j ∈ s := by
  simpa [counterKeys] using mem_counterKeys_foldl s [] j

theorem counterGet_of_mem {α : Type} [DecidableEq α] :
    ∀ c : List (α × Nat), (counterKeys c).Nodup →
      ∀ (k : α) (n : Nat), (k, n) ∈ c → counterGet c k = n := by
  intro c
  induction c with
  | nil => intro _ k n h; simp at h
  | cons p c ih =>
    obtain ⟨a, m⟩ := p
    intro hnd k n hm
    have hnd' : a ∉ counterKeys c ∧ (counterKeys c).Nodup := by
      simpa [counterKeys] using hnd
    rcases List.mem_cons.mp hm with h | h
    · injection h with h1 h2
      subst h1
      subst h2
      simp [counterGet]
    · have hak : a ≠ k := by
        rintro rfl
        exact hnd'.1 (by simpa [counterKeys] using List.mem_map_of_mem Prod.fst h)
      simp only [counterGet, hak, if_false]
      exact ih hnd'.2 k n h

theorem exists_entry_of_mem_keys {α : Type} (c : List (α × Nat)) (k : α)
    (h : k ∈ counterKeys c) : ∃ n, (k, n) ∈ c := by
  obtain ⟨p, hp, hk⟩ := List.mem_map.mp h
  exact ⟨p.2, by rw [← hk]; simpa using hp⟩

theorem countOcc_pos {α : Type} [DecidableEq α] :
    ∀ (s : List α) (v : α), v ∈ s ↔ 1 ≤ countOcc s v := by
  intro s v
  induction s with
  | nil => simp [countOcc]
  | cons a s ih =>
    by_cases h : a = v
    · subst h; simp [countOcc]
    · have hva : ¬(v = a) := fun hh => h hh.symm
      simp [countOcc, h, List.mem_cons, hva, ih]

theorem mem_filterCount {α : Type} [DecidableEq α] (s : List α) (P : Nat → Prop)
    [DecidablePred P] (v : α) :
    (v ∈ (counterOf s).filterMap (fun p => if P p.2 then some p.1 else none)) ↔
      (v ∈ s ∧ P (countOcc s v)) := by
  rw [List.mem_filterMap]
  constructor
  · rintro ⟨⟨k, n⟩, hmem, hif⟩
    by_cases hp : P n
    · rw [if_pos hp, Option.some.injEq] at hif
      subst hif
      have hkeys : k ∈ counterKeys (counterOf s) := by
        simpa [counterKeys] using List.mem_map_of_mem Prod.fst hmem
      have hget := counterGet_of_mem _ (counterOf_keys_nodup s) k n hmem
      rw [counterOf_get] at hget
      exact ⟨(mem_counterOf_keys s k).mp hkeys, hget ▸ hp⟩
    · rw [if_neg hp] at hif; cases hif
  · rintro ⟨hv, hp⟩
    have hkeys : v ∈ counterKeys (counterOf s) := (mem_counterOf_keys s v).mpr hv
    obtain ⟨n, hentry⟩ := exists_entry_of_mem_keys _ _ hkeys
    have hget := counterGet_of_mem _ (counterOf_keys_nodup s) v n hentry
    rw [counterOf_get] at hget
    exact ⟨(v, n), hentry, by rw [if_pos (hget ▸ hp)]⟩

theorem filterCount_sublist {α : Type} (c : List (α × Nat)) (P : Nat → Prop) [DecidablePred P] :
    (c.filterMap (fun p => if P p.2 then some p.1 else none)).Sublist (counterKeys c) := by
  induction c with
  | nil => simp [counterKeys]
  | cons p c ih =>
    simp only [List.filterMap_cons, counterKeys, List.map_cons]
    by_cases h : P p.2
    · rw [if_pos h]
      exact ih.cons₂ p.1
    · rw [if_neg h]
      exact ih.cons p.1

theorem le_foldl_max_init (l : List Nat) : ∀ a : Nat, a ≤ l.foldl Nat.max a := by
  induction l with
  | nil => intro a; exact Nat.le_refl a
  | cons x l ih =>
    intro a
    exact Nat.le_trans (Nat.le_max_left a x) (ih (Nat.max a x))

theorem le_foldl_max_mem (l : List Nat) : ∀ (a : Nat) (x : Nat), x ∈ l → x ≤ l.foldl Nat.max a := by
  induction l with
  | nil => intro a x hx; simp at hx
  | cons y l ih =>
    intro a x hx
    rcases List.mem_cons.mp hx with rfl | hx
    · exact Nat.le_trans (Nat.le_max_right a x) (le_foldl_max_init l (Nat.max a x))
    · exact ih (Nat.max a y) x hx

theorem foldl_max_mem (l : List Nat) : ∀ a : Nat, l.foldl Nat.max a = a ∨ l.foldl Nat.max a ∈ l := by
  induction l with
  | nil => intro a; left; rfl
  | cons x l ih =>
    intro a
    rcases ih (Nat.max a x) with h | h
    · rw [List.foldl_cons, h]
      rcases Nat.le_total a x with hle | hle
      · right
        have hmx : a.max x = x := by
          have hdef : a.max x = if a ≤ x then x else a := rfl
          rw [hdef]; split <;> omega
        rw [hmx]
        exact List.mem_cons_self x l
      · left
        have hmx : a.max x = a := by
          have hdef : a.max x = if a ≤ x then x else a := rfl
          rw [hdef]; split <;> omega
        rw [hmx]
    · right
      rw [List.foldl_cons]
      exact List.mem_cons_of_mem x h

theorem natMax?_spec (l : List Nat) (m : Nat) (h : natMax? l = some m) :
    m ∈ l ∧ ∀ x ∈ l, x ≤ m := by
  match l with
  | [] => simp [natMax?] at h
  | n :: ns =>
    simp only [natMax?, Option.some.injEq] at h
    subst h
    constructor
    · rcases foldl_max_mem ns n with h | h
      · rw [h]; exact List.mem_cons_self n ns
      · exact List.mem_cons_of_mem n h
    · intro x hx
      rcases List.mem_cons.mp hx with rfl | hx
      · exact le_foldl_max_init ns x
      · exact le_foldl_max_mem ns n x hx

theorem natMax?_eq_none (l : List Nat) : natMax? l = none ↔ l = [] := by
  cases l <;> simp [natMax?]

theorem getD_mem_or_eq {α : Type} :
    ∀ (l : List α) (i : Nat) (d : α), l.getD i d ∈ l ∨ l.getD i d = d := by
  intro l
  induction l with
  | nil => intro i d; right; cases i <;> rfl
  | cons a as ih =>
    intro i d
    cases i with
    | zero => left; exact List.mem_cons_self a as
    | succ i =>
      rcases ih i d with h | h
      · left
        simpa [List.getD_cons_succ] using List.mem_cons_of_mem a h
      · right
        simpa [List.getD_cons_succ] using h

theorem pyRandomChoice_mem (rnd : List PyValue → Nat) (l : List PyValue) (h : l ≠ []) :
    pyRandomChoice rnd l ∈ l := by
  match l with
  | [] => exact absurd rfl h
  | a :: as =>
    simp only [pyRandomChoice]
    rcases getD_mem_or_eq (a :: as) (rnd (a :: as) % (a :: as).length) a with hm | hm
    · exact hm
    · rw [hm]; exact List.mem_cons_self a as

theorem mem_mostCommonValues (s : List PyValue) (m : Nat) (v : PyValue) :
    v ∈ mostCommonValues (counterOf s) m ↔ v ∈ s ∧ countOcc s v = m :=
  mem_filterCount s (· = m) v

theorem mostCommonValues_nodup (s : List PyValue) (m : Nat) :
    (mostCommonValues (counterOf s) m).Nodup :=
  (counterOf_keys_nodup s).sublist (filterCount_sublist (counterOf s) (· = m))

/-- Central specification of the shared majority computation: on a nonempty
value stream it succeeds with SOME value of maximal frequency; whatever the
random draw, the result is a member of the tied set; and when the maximizer
is unique, the result is exactly it. -/
theorem majorityValueOf_spec (rnd : List PyValue → Nat) (vs : List PyValue) (h : vs ≠ []) :
    ∃ v, majorityValueOf rnd vs = .ok v ∧ v ∈ vs ∧
      (∀ w, countOcc vs w ≤ countOcc vs v) ∧
      (∀ u, u ∈ vs → (∀ w, countOcc vs w ≤ countOcc vs u) →
        (∀ w, w ∈ vs → countOcc vs w = countOcc vs u → w = u) → v = u) := by
  have hkeys : counterKeys (counterOf vs) ≠ [] := by
    match vs, h with
    | x :: t, _ =>
      intro hk
      have : x ∈ counterKeys (counterOf (x :: t)) :=
        (mem_counterOf_keys (x :: t) x).mpr (List.mem_cons_self x t)
      rw [hk] at this
      simp at this
  have hcounts : (counterOf vs).map Prod.snd ≠ [] := by
    intro hc
    apply hkeys
    have := congrArg List.length hc
    simp only [List.length_map] at this
    simpa [counterKeys, List.length_map] using List.length_eq_zero.mp this ▸ rfl
  cases hM : natMax? ((counterOf vs).map Prod.snd) with
  | none => exact absurd ((natMax?_eq_none _).mp hM) hcounts
  | some m =>
    obtain ⟨hmMem, hmLe⟩ := natMax?_spec _ m hM
    -- every frequency is bounded by m
    have hboundAll : ∀ w, countOcc vs w ≤ m := by
      intro w
      by_cases hw : w ∈ vs
      · obtain ⟨n, hentry⟩ := exists_entry_of_mem_keys _ w ((mem_counterOf_keys vs w).mpr hw)
        have hget := counterGet_of_mem _ (counterOf_keys_nodup vs) w n hentry
        rw [counterOf_get] at hget
        rw [hget]
        exact hmLe n (List.mem_map_of_mem Prod.snd hentry)
      · have : countOcc vs w = 0 := by
          by_contra hne
          exact hw ((countOcc_pos vs w).mpr (Nat.one_le_iff_ne_zero.mpr hne))
        rw [this]; exact Nat.zero_le m
    -- the tied set is nonempty
    have hmcvNe : mostCommonValues (counterOf vs) m ≠ [] := by
      obtain ⟨⟨k, n⟩, hkn, hsnd⟩ := List.mem_map.mp hmMem
      intro hempty
      have hkmem : k ∈ mostCommonValues (counterOf vs) m := by
        apply List.mem_filterMap.mpr
        exact ⟨(k, n), hkn, by simp at hsnd; rw [if_pos hsnd]⟩
      rw [hempty] at hkmem
      simp at hkmem
    -- membership in the tied set characterizes maximal frequency
    have hmcvMem : ∀ v, v ∈ mostCommonValues (counterOf vs) m ↔ v ∈ vs ∧ countOcc vs v = m :=
      fun v => mem_mostCommonValues vs m v
    -- the chosen value, branch by branch
    have hout : ∃ v, majorityValueOf rnd vs = .ok v ∧ v ∈ mostCommonValues (counterOf vs) m := by
      simp only [majorityValueOf, hM]
      by_cases hlen : 1 < (mostCommonValues (counterOf vs) m).length
      · rw [if_pos hlen]
        exact ⟨_, rfl, pyRandomChoice_mem rnd _ hmcvNe⟩
      · rw [if_neg hlen]
        match hh : mostCommonValues (counterOf vs) m, hmcvNe with
        | v :: t, _ => exact ⟨v, rfl, List.mem_cons_self v t⟩
    obtain ⟨v, hveq, hvmem⟩ := hout
    obtain ⟨hvin, hvcount⟩ := (hmcvMem v).mp hvmem
    refine ⟨v, hveq, hvin, ?_, ?_⟩
    · intro w
      rw [hvcount]
      exact hboundAll w
    · intro u huin humax huniq
      have hucount : countOcc vs u = m :=
        Nat.le_antisymm (hboundAll u) (hvcount ▸ humax v)
      have humem : u ∈ mostCommonValues (counterOf vs) m := (hmcvMem u).mpr ⟨huin, hucount⟩
      by_cases hlen : 1 < (mostCommonValues (counterOf vs) m).length
      · -- at least two distinct tied values contradict uniqueness of the maximizer
        exfalso
        match hh : mostCommonValues (counterOf vs) m, hlen, mostCommonValues_nodup vs m with
        | x :: y :: t, _, hnd =>
          rw [hh] at hmcvMem
          have hx := (hmcvMem x).mp (List.mem_cons_self x (y :: t))
          have hy := (hmcvMem y).mp (List.mem_cons_of_mem x (List.mem_cons_self y t))
          have hxy : x ≠ y := by
            intro he
            rw [List.nodup_cons] at hnd
            exact hnd.1 (he ▸ List.mem_cons_self y t)
          have hxu : x = u := huniq x hx.1 (by rw [hx.2, hucount])
          have hyu : y = u := huniq y hy.1 (by rw [hy.2, hucount])
          exact hxy (hxu.trans hyu.symm)
      · -- the tied set is a singleton containing both v and u
        have hlen1 : (mostCommonValues (counterOf vs) m).length = 1 := by
          have hpos : 0 < (mostCommonValues (counterOf vs) m).length :=
            List.length_pos.mpr hmcvNe
          omega
        obtain ⟨x, hh⟩ := List.length_eq_one.mp hlen1
        rw [hh] at hvmem humem
        have h1 := List.mem_singleton.mp hvmem
        have h2 := List.mem_singleton.mp humem
        rw [h1, h2]

theorem bindE_ok {α β : Type} (a : α) (f : α → Except PyErr β) :
    (Bind.bind (Except.ok a : Except PyErr α) f) = f a := rfl

theorem bindE_error {α β : Type} (e : PyErr) (f : α → Except PyErr β) :
    (Bind.bind (Except.error e : Except PyErr α) f) = Except.error e := rfl

theorem pureE (a : α) : (Pure.pure a : Except PyErr α) = Except.ok a := rfl

theorem exceptMapM_ok_mem {α β : Type} (f : α → Except PyErr β) :
    ∀ (l : List α) (l' : List β), exceptMapM f l = .ok l' → ∀ b ∈ l', ∃ a ∈ l, f a = .ok b := by
  intro l
  induction l with
  | nil =>
    intro l' h b hb
    simp only [exceptMapM, Except.ok.injEq] at h
    subst h
    simp at hb
  | cons a t ih =>
    intro l' h b hb
    simp only [exceptMapM] at h
    cases hfa : f a with
    | error e => rw [hfa, bindE_error] at h; cases h
    | ok v =>
      rw [hfa, bindE_ok] at h
      cases hrest : exceptMapM f t with
      | error e => rw [hrest, bindE_error] at h; cases h
      | ok vs =>
        rw [hrest, bindE_ok, pureE, Except.ok.injEq] at h
        subst h
        rcases List.mem_cons.mp hb with rfl | hb
        · exact ⟨a, List.mem_cons_self a t, hfa⟩
        · obtain ⟨x, hx, hfx⟩ := ih vs hrest b hb
          exact ⟨x, List.mem_cons_of_mem a hx, hfx⟩

theorem exceptMapM_ok_length {α β : Type} (f : α → Except PyErr β) :
    ∀ (l : List α) (l' : List β), exceptMapM f l = .ok l' → l'.length = l.length := by
  intro l
  induction l with
  | nil =>
    intro l' h
    simp only [exceptMapM, Except.ok.injEq] at h
    subst h
    rfl
  | cons a t ih =>
    intro l' h
    simp only [exceptMapM] at h
    cases hfa : f a with
    | error e => rw [hfa, bindE_error] at h; cases h
    | ok v =>
      rw [hfa, bindE_ok] at h
      cases hrest : exceptMapM f t with
      | error e => rw [hrest, bindE_error] at h; cases h
      | ok vs =>
        rw [hrest, bindE_ok, pureE, Except.ok.injEq] at h
        subst h
        simp [ih vs hrest]

/-- Whether a value is a Python scalar (string or int) — i.e. hashable and
accepted by the strict members of the value union. -/
def scalarValue : PyValue → Bool
  | .str _ => true
  | .int _ => true
  | _ => false

/-- Whether a lookup produced a scalar value. -/
def optScalar : Option PyValue → Bool
  | some v => scalarValue v
  | none => false

/-- The rating/label values collected from the submitted responses for a
field (in response order). -/
def submittedValues (field : String) (rec : FeedbackRecord) : List PyValue :=
  (submittedOf rec).filterMap (fun r => lookupValue r.values field)

theorem mkUnificationValue_scalar (v : PyValue) (tag : String) (h : scalarValue v = true) :
    mkUnificationValue v tag = .ok ⟨v, tag⟩ := by
  cases v with
  | str s => rfl
  | int n => rfl
  | strList l => simp [scalarValue] at h
  | float q => simp [scalarValue] at h

theorem exceptMapM_lookup_scalar (field : String) :
    ∀ l : List ResponseSchema,
      (∀ r ∈ l, optScalar (lookupValue r.values field) = true) →
      exceptMapM
        (fun r =>
          match lookupValue r.values field with
          | none => Except.error PyErr.keyError
          | some v => hashableKey v) l
        = .ok (l.filterMap (fun r => lookupValue r.values field)) := by
  intro l
  induction l with
  | nil => intro _; rfl
  | cons r t ih =>
    intro h
    have hr := h r (List.mem_cons_self r t)
    cases hl : lookupValue r.values field with
    | none => rw [hl] at hr; simp [optScalar] at hr
    | some w =>
      rw [hl] at hr
      have hw : hashableKey w = .ok w := by
        cases w with
        | str s => rfl
        | int n => rfl
        | strList ls => simp [optScalar, scalarValue] at hr
        | float q => simp [optScalar, scalarValue] at hr
      simp only [exceptMapM, hl, hw, bindE_ok,
        ih (fun x hx => h x (List.mem_cons_of_mem r hx)), pureE, List.filterMap_cons]

theorem filterMap_allSome_length {α β : Type} (f : α → Option β) :
    ∀ l : List α, (∀ a ∈ l, (f a).isSome) → (l.filterMap f).length = l.length := by
  intro l
  induction l with
  | nil => intro _; rfl
  | cons a t ih =>
    intro h
    have ha := h a (List.mem_cons_self a t)
    cases hfa : f a with
    | none => rw [hfa] at ha; simp at ha
    | some b =>
      simp only [List.filterMap_cons, hfa, List.length_cons]
      rw [ih (fun x hx => h x (List.mem_cons_of_mem a hx))]

/-- Claim C2: for a record with a nonempty submitted-response set (of
hashable scalar values), the shared majority procedure of the rating and
single-label strategies succeeds, stores a ONE-ELEMENT LIST holding one
unification value tagged "majority", and the stored value is always a
maximal-frequency member of the submitted values — whatever the random
draw — and is exactly the maximizer when it is unique. Both strategy
entry points route a one-record collection through this procedure. -/
theorem C2_thm (rnd : List PyValue → Nat) (field : String) (rec : FeedbackRecord)
    (hne : submittedOf rec ≠ [])
    (hv : ∀ r ∈ submittedOf rec, optScalar (lookupValue r.values field) = true) :
    ∃ v,
      singleValueMajorityRecord rnd field rec =
        .ok { rec with unified_responses :=
                (some [(field, UnifiedEntry.list [⟨v, "majority"⟩])]) } ∧
      v ∈ submittedValues field rec ∧
      (∀ w, countOcc (submittedValues field rec) w ≤ countOcc (submittedValues field rec) v) ∧
      (∀ u, u ∈ submittedValues field rec →
        (∀ w, countOcc (submittedValues field rec) w ≤ countOcc (submittedValues field rec) u) →
        (∀ w, w ∈ submittedValues field rec →
          countOcc (submittedValues field rec) w = countOcc (submittedValues field rec) u → w = u) →
        v = u) ∧
      RatingQuestionStrategy._majority rnd [rec] field =
        .ok ([{ rec with unified_responses :=
                  (some [(field, UnifiedEntry.list [⟨v, "majority"⟩])]) }], .inputCollection) ∧
      LabelQuestionStrategy._majority rnd [rec] field =
        .ok ([{ rec with unified_responses :=
                  (some [(field, UnifiedEntry.list [⟨v, "majority"⟩])]) }], .lastRecord) := by
  have hmapM := exceptMapM_lookup_scalar field (submittedOf rec) hv
  have hVSne : submittedValues field rec ≠ [] := by
    intro hempty
    apply hne
    have hlen := filterMap_allSome_length (fun r => lookupValue r.values field)
      (submittedOf rec)
      (fun r hr => by
        have := hv r hr
        cases hl : lookupValue r.values field with
        | none => rw [hl] at this; simp [optScalar] at this
        | some w => simp [hl])
    rw [← submittedValues, hempty] at hlen
    exact List.length_eq_zero.mp hlen.symm
  obtain ⟨v, hveq, hvin, hvmax, hvuniq⟩ := majorityValueOf_spec rnd (submittedValues field rec) hVSne
  have hvscalar : scalarValue v = true := by
    obtain ⟨r, hr, hlr⟩ := List.mem_filterMap.mp hvin
    have := hv r hr
    rw [hlr] at this
    simpa [optScalar] using this
  have hmkuv := mkUnificationValue_scalar v "majority" hvscalar
  have hrec : singleValueMajorityRecord rnd field rec =
      .ok (writeUnified field (UnifiedEntry.list [⟨v, "majority"⟩]) rec) := by
    simp only [singleValueMajorityRecord]
    rw [hmapM, bindE_ok,
      show List.filterMap (fun r => lookupValue r.values field) (submittedOf rec)
        = submittedValues field rec from rfl,
      hveq, bindE_ok, hmkuv, bindE_ok, pureE]
  have hlist : exceptMapM (singleValueMajorityRecord rnd field) [rec] =
      .ok [writeUnified field (UnifiedEntry.list [⟨v, "majority"⟩]) rec] := by
    simp only [exceptMapM]
    rw [hrec, bindE_ok]
    rfl
  refine ⟨v, hrec, hvin, hvmax, hvuniq, ?_, ?_⟩
  · simp only [RatingQuestionStrategy._majority]
    rw [hlist]
    rfl
  · simp only [LabelQuestionStrategy._majority]
    rw [hlist]
    rfl

/-- Claim C2, witness: single-label responses "a", "b", "a". -/
theorem C2_witness :
    (submittedOf recABA ≠ [] ∧
      ∀ r ∈ submittedOf recABA, optScalar (lookupValue r.values "lq") = true) ∧
    (∃ v,
      singleValueMajorityRecord rnd0 "lq" recABA =
        .ok { recABA with unified_responses :=
                (some [("lq", UnifiedEntry.list [⟨v, "majority"⟩])]) } ∧
      v ∈ submittedValues "lq" recABA ∧
      (∀ w, countOcc (submittedValues "lq" recABA) w ≤ countOcc (submittedValues "lq" recABA) v) ∧
      (∀ u, u ∈ submittedValues "lq" recABA →
        (∀ w, countOcc (submittedValues "lq" recABA) w ≤ countOcc (submittedValues "lq" recABA) u) →
        (∀ w, w ∈ submittedValues "lq" recABA →
          countOcc (submittedValues "lq" recABA) w = countOcc (submittedValues "lq" recABA) u → w = u) →
        v = u) ∧
      RatingQuestionStrategy._majority rnd0 [recABA] "lq" =
        .ok ([{ recABA with unified_responses :=
                  (some [("lq", UnifiedEntry.list [⟨v, "majority"⟩])]) }], .inputCollection) ∧
      LabelQuestionStrategy._majority rnd0 [recABA] "lq" =
        .ok ([{ recABA with unified_responses :=
                  (some [("lq", UnifiedEntry.list [⟨v, "majority"⟩])]) }], .lastRecord)) :=
  ⟨⟨by decide, by decide⟩, C2_thm rnd0 "lq" recABA (by decide) (by decide)⟩

/-- The label list a response carries for a field ([] as a junk default when
the value is absent or not a list; the theorems' hypotheses exclude that). -/
def labelListOf (field : String) (r : ResponseSchema) : List String :=
  match lookupValue r.values field with
  | some (.strList l) => l
  | _ => []

/-- Concatenation of per-response label lists. -/
def concatAll : List (List String) → List String
  | [] => []
  | l :: ls => l ++ concatAll ls

/-- All label occurrences over the submitted responses, in response order. -/
def submittedLabels (field : String) (rec : FeedbackRecord) : List String :=
  concatAll ((submittedOf rec).map (labelListOf field))

/-- Whether a lookup produced a list-of-strings value. -/
def isStrListOpt : Option PyValue → Bool
  | some (.strList _) => true
  | _ => false

/-- String extraction from a value. -/
def extractStr : PyValue → Option String
  | .str s => some s
  | _ => none

theorem countOcc_append {α : Type} [DecidableEq α] (s t : List α) (v : α) :
    countOcc (s ++ t) v = countOcc s v + countOcc t v := by
  induction s with
  | nil => simp [countOcc]
  | cons a s ih => simp [countOcc, ih]; omega

theorem countOcc_map_str (l : List String) (x : String) :
    countOcc (l.map PyValue.str) (PyValue.str x) = countOcc l x := by
  induction l with
  | nil => rfl
  | cons a l ih =>
    by_cases h : a = x
    · subst h; simp [countOcc, ih]
    · simp [countOcc, ih, h, PyValue.str.injEq]

theorem expandAll_strList :
    ∀ ls : List (List String),
      expandAll (ls.map PyValue.strList) = (concatAll ls).map PyValue.str := by
  intro ls
  induction ls with
  | nil => rfl
  | cons l ls ih =>
    simp [expandAll, multiLabelExpand, concatAll, List.map_append, ih]

theorem exceptMapM_lookup_strList (field : String) :
    ∀ l : List ResponseSchema,
      (∀ r ∈ l, isStrListOpt (lookupValue r.values field) = true) →
      exceptMapM
        (fun r =>
          match lookupValue r.values field with
          | none => Except.error PyErr.keyError
          | some v => Except.ok v) l
        = .ok ((l.map (labelListOf field)).map PyValue.strList) := by
  intro l
  induction l with
  | nil => intro _; rfl
  | cons r t ih =>
    intro h
    have hr := h r (List.mem_cons_self r t)
    cases hl : lookupValue r.values field with
    | none => rw [hl] at hr; simp [isStrListOpt] at hr
    | some w =>
      rw [hl] at hr
      cases w with
      | strList ls =>
        have hlab : labelListOf field r = ls := by simp [labelListOf, hl]
        simp only [exceptMapM, hl, bindE_ok,
          ih (fun x hx => h x (List.mem_cons_of_mem r hx)), pureE,
          List.map_cons, hlab]
      | str s => simp [isStrListOpt] at hr
      | int n => simp [isStrListOpt] at hr
      | float q => simp [isStrListOpt] at hr

theorem strList_decomp :
    ∀ L : List PyValue, (∀ v ∈ L, ∃ s, v = PyValue.str s) →
      L = (L.filterMap extractStr).map PyValue.str := by
  intro L
  induction L with
  | nil => intro _; rfl
  | cons v t ih =>
    intro h
    obtain ⟨s, rfl⟩ := h v (List.mem_cons_self v t)
    simp only [List.filterMap_cons, extractStr, List.map_cons]
    rw [← ih (fun x hx => h x (List.mem_cons_of_mem _ hx))]

theorem exceptMapM_coerce_strs :
    ∀ ss : List String, exceptMapM pyCoerceStr (ss.map PyValue.str) = .ok ss := by
  intro ss
  induction ss with
  | nil => rfl
  | cons s t ih =>
    simp only [List.map_cons, exceptMapM, pyCoerceStr, bindE_ok, ih, pureE]

theorem mem_map_str (l : List String) (x : String) :
    PyValue.str x ∈ l.map PyValue.str ↔ x ∈ l := by
  rw [List.mem_map]
  constructor
  · rintro ⟨a, ha, hax⟩
    rw [show a = x from PyValue.str.injEq a x ▸ hax] at ha
    exact ha
  · intro hx
    exact ⟨x, hx, rfl⟩

/-- Claim C1 (amended): the multi-label majority counts label OCCURRENCES
across the submitted responses — a label repeated inside one response's
list counts once per occurrence — and accepts a label iff its occurrence
count reaches `N // 2 + 1` where N is the number of submitted responses;
the accepted labels (without duplicates) are stored as ONE unification
value wrapping the list, tagged "majority". -/
theorem C1_amended_thm (field : String) (rec : FeedbackRecord)
    (hv : ∀ r ∈ submittedOf rec, isStrListOpt (lookupValue r.values field) = true) :
    ∃ accepted : List String,
      multiLabelMajorityRecord field rec =
        .ok { rec with unified_responses :=
                (some [(field, UnifiedEntry.single ⟨PyValue.strList accepted, "majority"⟩)]) } ∧
      accepted.Nodup ∧
      (∀ lab : String, lab ∈ accepted ↔
        (submittedOf rec).length / 2 + 1 ≤ countOcc (submittedLabels field rec) lab) := by
  have hmapM := exceptMapM_lookup_strList field (submittedOf rec) hv
  have hstream : expandAll (((submittedOf rec).map (labelListOf field)).map PyValue.strList)
      = (submittedLabels field rec).map PyValue.str := by
    rw [expandAll_strList, submittedLabels]
  set t := (submittedOf rec).length / 2 + 1 with ht
  set S := submittedLabels field rec with hS
  set mv := (counterOf (S.map PyValue.str)).filterMap
    (fun p => if t ≤ p.2 then some p.1 else none) with hmv
  have hmvMem : ∀ v, v ∈ mv ↔ v ∈ S.map PyValue.str ∧ t ≤ countOcc (S.map PyValue.str) v :=
    fun v => mem_filterCount (S.map PyValue.str) (t ≤ ·) v
  have hmvStr : ∀ v ∈ mv, ∃ s, v = PyValue.str s := by
    intro v hvm
    obtain ⟨hin, _⟩ := (hmvMem v).mp hvm
    obtain ⟨s, _, rfl⟩ := List.mem_map.mp hin
    exact ⟨s, rfl⟩
  set accepted := mv.filterMap extractStr with hacc
  have hdecomp : mv = accepted.map PyValue.str := strList_decomp mv hmvStr
  have hcoerce : mkUnificationValueOfList mv "majority" =
      .ok ⟨PyValue.strList accepted, "majority"⟩ := by
    rw [mkUnificationValueOfList, hdecomp, exceptMapM_coerce_strs]
    rfl
  have hrec : multiLabelMajorityRecord field rec =
      .ok (writeUnified field (UnifiedEntry.single ⟨PyValue.strList accepted, "majority"⟩) rec) := by
    simp only [multiLabelMajorityRecord]
    rw [hmapM, bindE_ok, hstream, ← ht, ← hmv, hcoerce, bindE_ok, pureE]
  refine ⟨accepted, hrec, ?_, ?_⟩
  · have hmvNodup : mv.Nodup :=
      (counterOf_keys_nodup (S.map PyValue.str)).sublist
        (filterCount_sublist (counterOf (S.map PyValue.str)) (t ≤ ·))
    rw [hdecomp] at hmvNodup
    exact hmvNodup.of_map PyValue.str
  · intro lab
    have hiff : PyValue.str lab ∈ mv ↔ lab ∈ accepted := by
      rw [hdecomp, mem_map_str]
    rw [← hiff, hmvMem (PyValue.str lab), countOcc_map_str]
    constructor
    · rintro ⟨_, hc⟩; exact hc
    · intro hc
      refine ⟨?_, hc⟩
      rw [mem_map_str]
      exact (countOcc_pos S lab).mpr (Nat.le_trans (by omega) hc)

/-- Claim C1 (amended), witness: the record with responses
["x","x"], ["y"], ["y"]. -/
theorem C1_witness :
    (∀ r ∈ submittedOf recC1, isStrListOpt (lookupValue r.values "q") = true) ∧
    (∃ accepted : List String,
      multiLabelMajorityRecord "q" recC1 =
        .ok { recC1 with unified_responses :=
                (some [("q", UnifiedEntry.single ⟨PyValue.strList accepted, "majority"⟩)]) } ∧
      accepted.Nodup ∧
      (∀ lab : String, lab ∈ accepted ↔
        (submittedOf recC1).length / 2 + 1 ≤ countOcc (submittedLabels "q" recC1) lab)) :=
  ⟨by decide, C1_amended_thm "q" recC1 (by decide)⟩

/-- The name of the question held by a label-family binding. -/
def LMQuestion.qname : LMQuestion → String
  | .label q => q.name
  | .multi q => q.name

/-- Claim C4: the binding's single entry point forwards to the bound
strategy's reduce operation against the bound question — the resulting
record mutations are exactly those of calling the strategy's
`unify_responses` directly with the bound question's name (the reduce
itself only extracts the name from a question argument); the binding call
discards the reduce's return value, so its result is the mutated
collection. -/
theorem C4_thm (td : TrainingDataForTextClassification) (rnd : List PyValue → Nat)
    (records : List FeedbackRecord) :
    td.unify_responses rnd records =
      (match td.label with
       | TrainLabel.rating u =>
         (RatingQuestionStrategy.unify_responses u.strategy rnd records
           (.name u.question.name)).map Prod.fst
       | TrainLabel.label u =>
         (LabelStrategyStored.unify_responses u.strategy rnd records
           (.name u.question.qname)).map Prod.fst) := by
  obtain ⟨tf, lbl⟩ := td
  cases lbl with
  | rating u => rfl
  | label u =>
    obtain ⟨q, s⟩ := u
    cases q with
    | label qd =>
      cases s with
      | labelS st => cases st <;> rfl
      | multiS st => cases st <;> rfl
    | multi qd =>
      cases s with
      | labelS st => cases st <;> rfl
      | multiS st => cases st <;> rfl

/-- Claim C5 (amended): on an empty submitted-response set, the rating
aggregates fail (`mean` with a `ZeroDivisionError`, `max`/`min` with a
`ValueError`) and the single-value majority fails (`max` over the empty
counter), but the MULTI-label majority does not fail — it stores the empty
list as the unified value. -/
theorem C5_amended_thm (rnd : List PyValue → Nat) (field : String) (rec : FeedbackRecord)
    (hsub : submittedOf rec = []) :
    ratingAggregateRecord .mean field rec = .error .zeroDivisionError ∧
    ratingAggregateRecord .max field rec = .error (.valueError "max() arg is an empty sequence") ∧
    ratingAggregateRecord .min field rec = .error (.valueError "min() arg is an empty sequence") ∧
    singleValueMajorityRecord rnd field rec =
      .error (.valueError "max() arg is an empty sequence") ∧
    multiLabelMajorityRecord field rec =
      .ok { rec with unified_responses :=
              (some [(field, UnifiedEntry.single ⟨PyValue.strList [], "majority"⟩)]) } := by
  refine ⟨?_, ?_, ?_, ?_, ?_⟩
  · simp only [ratingAggregateRecord, ratingAggregateEntry, hsub]; rfl
  · simp only [ratingAggregateRecord, ratingAggregateEntry, hsub]; rfl
  · simp only [ratingAggregateRecord, ratingAggregateEntry, hsub]; rfl
  · simp only [singleValueMajorityRecord, hsub]; rfl
  · simp only [multiLabelMajorityRecord, hsub]; rfl

/-- Claim C5 (amended), witness: the record with one discarded response. -/
theorem C5_witness :
    submittedOf recEmpty = [] ∧
    ratingAggregateRecord .mean "q" recEmpty = .error .zeroDivisionError ∧
    singleValueMajorityRecord rnd0 "q" recEmpty =
      .error (.valueError "max() arg is an empty sequence") ∧
    multiLabelMajorityRecord "q" recEmpty =
      .ok { recEmpty with unified_responses :=
              (some [("q", UnifiedEntry.single ⟨PyValue.strList [], "majority"⟩)]) } := by
  have h := C5_amended_thm rnd0 "q" recEmpty (by decide)
  exact ⟨by decide, h.1, h.2.2.2.1, h.2.2.2.2⟩

/-- Claim C7 (amended): a reduce for question A is insensitive to the
record's previous `unified_responses` map, and on success it REPLACES the
whole map with a single-entry map for A — so a prior entry for any other
question is dropped, while re-invocation for A itself recomputes and
overwrites A's entry. -/
theorem C7_amended_thm (field : String) (rec : FeedbackRecord)
    (u : Option (List (String × UnifiedEntry))) :
    (∀ strat, ratingAggregateRecord strat field { rec with unified_responses := u } =
       ratingAggregateRecord strat field rec) ∧
    (multiLabelMajorityRecord field { rec with unified_responses := u } =
       multiLabelMajorityRecord field rec) ∧
    (∀ strat rec', ratingAggregateRecord strat field rec = .ok rec' →
       ∃ e, rec'.unified_responses = some [(field, e)]) ∧
    (∀ rec', multiLabelMajorityRecord field rec = .ok rec' →
       ∃ e, rec'.unified_responses = some [(field, e)]) := by
  refine ⟨fun strat => rfl, rfl, ?_, ?_⟩
  · intro strat rec' h
    rw [ratingAggregateRecord] at h
    cases he : ratingAggregateEntry strat field rec with
    | error e => rw [he] at h; cases h
    | ok e =>
      rw [he] at h
      simp only [Except.map, Except.ok.injEq] at h
      subst h
      exact ⟨e, rfl⟩
  · intro rec' h
    rw [multiLabelMajorityRecord] at h
    cases hv : exceptMapM
        (fun r =>
          match lookupValue r.values field with
          | none => Except.error PyErr.keyError
          | some v => Except.ok v) (submittedOf rec) with
    | error e => rw [hv, bindE_error] at h; cases h
    | ok vals =>
      rw [hv, bindE_ok] at h
      simp only [] at h
      cases hu : mkUnificationValueOfList
          ((counterOf (expandAll vals)).filterMap
            (fun p => if (submittedOf rec).length / 2 + 1 ≤ p.2 then some p.1 else none))
          "majority" with
      | error e => rw [hu, bindE_error] at h; cases h
      | ok uv =>
        rw [hu, bindE_ok, pureE, Except.ok.injEq] at h
        subst h
        exact ⟨UnifiedEntry.single uv, rfl⟩

/-- Claim C7 (amended), witness: the record holding a prior entry for "B". -/
theorem C7_witness :
    ratingAggregateRecord .max "A" { recB with unified_responses := none } =
      ratingAggregateRecord .max "A" recB ∧
    (∃ e, ({ recB with unified_responses :=
              (some [("A", UnifiedEntry.single ⟨PyValue.int 3, "max"⟩)]) } : FeedbackRecord).unified_responses
            = some [("A", e)]) :=
  ⟨(C7_amended_thm "A" recB none).1 .max,
   (C7_amended_thm "A" recB none).2.2.1 .max
     { recB with unified_responses := (some [("A", UnifiedEntry.single ⟨PyValue.int 3, "max"⟩)]) }
     (by decide)⟩

/-- Whether an `Except` computation succeeded. -/
def exOk {α : Type} : Except PyErr α → Bool
  | .ok _ => true
  | .error _ => false

theorem validateVisibleLabels_ok (vis : Option Int) :
    (∃ v, validateVisibleLabels vis = .ok v) ↔ (vis = none ∨ ∃ n, vis = some n ∧ 3 ≤ n) := by
  cases vis with
  | none => simp [validateVisibleLabels]
  | some n =>
    by_cases h : 3 ≤ n <;> simp [validateVisibleLabels, h]

theorem labelsDictCheck_ok (d : List (String × String)) :
    (∃ ls, labelsDictCheck d = .ok ls) ↔ (1 < d.length ∧ (d.map Prod.snd).Nodup) := by
  by_cases h : 1 < d.length ∧ (d.map Prod.snd).Nodup <;> simp [labelsDictCheck, h]

theorem validateLabels_list_ok (l : List String) :
    (∃ ls, validateLabels (.list l) = .ok ls) ↔
      ((2 ≤ l.length ∧ l.Nodup) ∨
        ∃ dd, pyDictOfStrings l = .ok dd ∧ 1 < dd.length ∧ (dd.map Prod.snd).Nodup) := by
  by_cases h : 2 ≤ l.length ∧ l.Nodup
  · simp [validateLabels, h]
  · simp only [validateLabels, if_neg h]
    cases hd : pyDictOfStrings l with
    | error e => simp [h, labelsDictCheck_ok]
    | ok dd => simp [h, labelsDictCheck_ok]

theorem exOk_mkLabelQuestion (isMulti : Bool) (name : String) (title : Option String)
    (labels : LabelsInput) (vis : Option Int) :
    exOk (mkLabelQuestion isMulti name title labels vis) = true ↔
      ((∃ ls, validateLabels labels = .ok ls) ∧ (∃ v, validateVisibleLabels vis = .ok v)) := by
  cases hls : validateLabels labels with
  | error e => simp [mkLabelQuestion, hls, bindE_error, exOk]
  | ok ls =>
    cases hv : validateVisibleLabels vis with
    | error e => simp [mkLabelQuestion, hls, hv, bindE_ok, bindE_error, exOk]
    | ok v => simp [mkLabelQuestion, hls, hv, bindE_ok, pureE, exOk]

/-- Claim C9 (amended): question construction fails iff — rating: `values`
has fewer than 2 entries or duplicates; labels in LIST form: fewer than 2
entries or duplicate entries, EXCEPT that a failing list whose entries are
all two-character strings is coerced by pydantic into a key/value mapping
(first character to second, later pairs overriding) and then the dict rules
apply; labels in dict form: fewer than 2 entries or display texts not
pairwise distinct; `visible_labels`: an integer below 3 (None always
valid). -/
theorem C9_amended_thm (isMulti : Bool) (values : List Int) (l : List String)
    (d : List (String × String)) (vis : Option Int) :
    (exOk (RatingQuestion.mk? "q" none values) = true ↔
      (2 ≤ values.length ∧ values.Nodup)) ∧
    (exOk (mkLabelQuestion isMulti "q" none (.list l) vis) = true ↔
      (((2 ≤ l.length ∧ l.Nodup) ∨
          ∃ dd, pyDictOfStrings l = .ok dd ∧ 1 < dd.length ∧ (dd.map Prod.snd).Nodup) ∧
        (vis = none ∨ ∃ n, vis = some n ∧ 3 ≤ n))) ∧
    (exOk (mkLabelQuestion isMulti "q" none (.dict d) vis) = true ↔
      ((1 < d.length ∧ (d.map Prod.snd).Nodup) ∧
        (vis = none ∨ ∃ n, vis = some n ∧ 3 ≤ n))) := by
  refine ⟨?_, ?_, ?_⟩
  · by_cases h : 2 ≤ values.length ∧ values.Nodup <;> simp [RatingQuestion.mk?, h, exOk]
  · rw [exOk_mkLabelQuestion, validateLabels_list_ok, validateVisibleLabels_ok]
  · rw [exOk_mkLabelQuestion, show validateLabels (.dict d) = labelsDictCheck d from rfl,
      labelsDictCheck_ok, validateVisibleLabels_ok]
